import Mathlib

/-!
Verification of the transcript segmentation and verdict reconciliation core
of `src/app.py`.

The Python source is shallowly embedded below:

* `split_script_to_utterances` models the function of the same name
  (lines 42-68): split on line boundaries, strip each line, drop blank
  lines, number the rest from 1, and try the two `TIME_PATTERNS` regexes
  in order.
* `dedupe_results_by_utterance_id` models the function of the same name
  (lines 181-191): fold the verdict records into an insertion-ordered
  map with last-write-wins values, then return the values.
* `handle_model_response` models the response-handling tail of
  `call_openai_for_analysis` (lines 134-138): `json.loads` is external
  (Python stdlib) and is passed in as a parameter; on failure the raised
  message carries the raw provider output.

Python string primitives (`str.splitlines`, `str.strip`, truthiness of
strings and `None`) are modelled explicitly.  Regex character classes
`\s` and `\d` are modelled by `pyIsSpace` and `pyIsDigit`; `\d` is
modelled as the ASCII digits `0-9`.
-/

set_option autoImplicit false

namespace MetaComm

/-- Characters accepted by Python `str.isspace` (and stripped by
`str.strip`): ASCII whitespace, the C0 separator controls, and the
Unicode space characters. -/
def pyIsSpace (c : Char) : Bool :=
  c = ' ' || c = '\t' || c = '\n' || c = '\r' || c = '\x0b' || c = '\x0c' ||
  c = '\x1c' || c = '\x1d' || c = '\x1e' || c = '\x1f' || c = '\x85' ||
  c = '\xa0' || c = '\u1680' || ('\u2000' ≤ c && c ≤ '\u200a') ||
  c = '\u2028' || c = '\u2029' || c = '\u202f' || c = '\u205f' || c = '\u3000'

/-- The regex class `\d`, restricted to ASCII digits. -/
def pyIsDigit (c : Char) : Bool :=
  '0' ≤ c && c ≤ '9'

/-- Line-boundary characters recognized by Python `str.splitlines`. -/
def pyIsLineBreak (c : Char) : Bool :=
  c = '\n' || c = '\r' || c = '\x0b' || c = '\x0c' ||
  c = '\x1c' || c = '\x1d' || c = '\x1e' || c = '\x85' ||
  c = '\u2028' || c = '\u2029'

/-- Worker for `pySplitlines`.  `acc` holds the current line reversed;
`prevCR` records that the previous character was a carriage return, so
that the `\n` of a `\r\n` pair does not open an extra empty line. -/
def splitlinesAux : List Char → List Char → Bool → List String
  | [], acc, _ => if acc.isEmpty then [] else [String.mk acc.reverse]
  | c :: rest, acc, prevCR =>
    if c = '\n' && prevCR then
      splitlinesAux rest acc false
    else if pyIsLineBreak c then
      String.mk acc.reverse :: splitlinesAux rest [] (c = '\r')
    else
      splitlinesAux rest (c :: acc) false

/-- Python `str.splitlines`: no trailing empty line, `\r\n` is one
boundary. -/
def pySplitlines (s : String) : List String :=
  splitlinesAux s.data [] false

/-- Python `str.strip()`: remove leading and trailing whitespace. -/
def pyStrip (s : String) : String :=
  String.mk (((s.data.dropWhile pyIsSpace).reverse.dropWhile pyIsSpace).reverse)

/-- The hour part of both `TIME_PATTERNS` regexes: `\d{1,2}` followed by
a literal `:`.  Returns the digits and the input after the colon.  The
greedy two-digit attempt with backtracking is equivalent to this
deterministic reading because a digit is never `:`. -/
def matchHourColon (cs : List Char) : Option (List Char × List Char) :=
  match cs with
  | c1 :: cs1 =>
    if pyIsDigit c1 then
      match cs1 with
      | c2 :: cs2 =>
        if c2 = ':' then some ([c1], cs2)
        else if pyIsDigit c2 then
          match cs2 with
          | c3 :: cs3 => if c3 = ':' then some ([c1, c2], cs3) else none
          | [] => none
        else none
      | [] => none
    else none
  | [] => none

/-- The minutes part `\d{2}` of both `TIME_PATTERNS` regexes. -/
def matchMinutes (cs : List Char) : Option (List Char × List Char) :=
  match cs with
  | m1 :: m2 :: rest =>
    if pyIsDigit m1 && pyIsDigit m2 then some ([m1, m2], rest) else none
  | _ => none

/-- The optional seconds group `(?::\d{2})?`: consumed exactly when the
next three characters are `:` and two digits (if they are but the overall
match later fails, the alternative of not consuming them fails as well,
because what follows the group in both regexes is never `:`). -/
def matchOptSeconds : List Char → List Char × List Char
  | c0 :: s1 :: s2 :: rest =>
    if c0 = ':' && pyIsDigit s1 && pyIsDigit s2 then ([':', s1, s2], rest)
    else ([], c0 :: s1 :: s2 :: rest)
  | cs => ([], cs)

/-- The full time token `\d{1,2}:\d{2}(?::\d{2})?` shared by both
`TIME_PATTERNS` regexes.  Returns the matched token and the rest. -/
def matchTimeToken (cs : List Char) : Option (List Char × List Char) :=
  match matchHourColon cs with
  | none => none
  | some (hh, rest1) =>
    match matchMinutes rest1 with
    | none => none
    | some (mm, rest2) =>
      let (ss, rest3) := matchOptSeconds rest2
      some (hh ++ ':' :: (mm ++ ss), rest3)

/-- The dash-like separator class `[-–—]` of the second regex. -/
def dashChars : List Char := ['-', '–', '—']

/-- The trailing `(.*)$` capture of both regexes, applied after the
greedy `\s*`: `.` matches every character except `\n`, and `$` matches
at the end of the string or just before a final `\n`. -/
def capRest (t : List Char) : Option (List Char) :=
  if '\n' ∈ t then
    match t.getLast? with
    | some '\n' => if '\n' ∈ t.dropLast then none else some t.dropLast
    | _ => none
  else some t

/-- First entry of `TIME_PATTERNS`:
`^\s*\[(\d{1,2}:\d{2}(?::\d{2})?)\]\s*(.*)$` applied with `re.match`.
Returns `(group 1, group 2)` on success. -/
def matchBracketTime (cs : List Char) : Option (String × String) :=
  match cs.dropWhile pyIsSpace with
  | '[' :: cs1 =>
    match matchTimeToken cs1 with
    | some (tok, rest) =>
      match rest with
      | ']' :: rest2 =>
        match capRest (rest2.dropWhile pyIsSpace) with
        | some g2 => some (String.mk tok, String.mk g2)
        | none => none
      | _ => none
    | none => none
  | _ => none

/-- Second entry of `TIME_PATTERNS`:
`^\s*(\d{1,2}:\d{2}(?::\d{2})?)\s*[-–—]\s*(.*)$` applied with
`re.match`.  Returns `(group 1, group 2)` on success. -/
def matchDashTime (cs : List Char) : Option (String × String) :=
  match matchTimeToken (cs.dropWhile pyIsSpace) with
  | some (tok, rest) =>
    match rest.dropWhile pyIsSpace with
    | d :: rest2 =>
      if d ∈ dashChars then
        match capRest (rest2.dropWhile pyIsSpace) with
        | some g2 => some (String.mk tok, String.mk g2)
        | none => none
      else none
    | [] => none
  | none => none

/-- One utterance record as built by `split_script_to_utterances`. -/
structure Utterance where
  id : String
  line_no : Nat
  time : Option String
  text : String
deriving Repr, DecidableEq

/-- The `for pat in TIME_PATTERNS` loop body: first pattern that matches
wins. -/
def firstTimeMatch (ln : String) : Option (String × String) :=
  match matchBracketTime ln.data with
  | some r => some r
  | none => matchDashTime ln.data

/-- The body of the `for i, ln in enumerate(lines, start=1)` loop:
build the utterance record for line `ln` at 1-based position `i`. -/
def lineToUtterance (i : Nat) (ln : String) : Utterance :=
  match firstTimeMatch ln with
  | some (t, x) =>
    { id := "u" ++ toString i, line_no := i, time := some t, text := pyStrip x }
  | none =>
    { id := "u" ++ toString i, line_no := i, time := none, text := ln }

/-- The filtered line sequence: split, strip each line, drop the lines
that are empty after stripping (Python truthiness of `str`). -/
def nonBlankLines (raw : String) : List String :=
  ((pySplitlines raw).map pyStrip).filter (fun ln => ln ≠ "")

/-- `enumerate(lines, start=i)` combined with the loop body. -/
def numberLines : Nat → List String → List Utterance
  | _, [] => []
  | i, ln :: rest => lineToUtterance i ln :: numberLines (i + 1) rest

/-- `split_script_to_utterances` of `src/app.py` (lines 42-68). -/
def split_script_to_utterances (raw : String) : List Utterance :=
  numberLines 1 (nonBlankLines raw)

/-- One verdict record from the model's `results` array.  The reconciler
only inspects `utterance_id`; the remaining fields are carried opaquely
(Python `dict.get` returning `None` for absent keys is `Option`). -/
structure VerdictRecord where
  utterance_id : Option String := none
  verdict : Option String := none
  law_reference : Option String := none
  reason : Option String := none
  suggested_fix : Option String := none
deriving Repr, DecidableEq

/-- Python truthiness of `r.get("utterance_id")`: `None` and `""` are
falsy. -/
def uidPresent : Option String → Bool
  | none => false
  | some s => s ≠ ""

/-- `dedup[uid] = r` on an insertion-ordered dict modelled as an
association list: overwriting keeps the key position, a new key is
appended. -/
def insertLWW (m : List (String × VerdictRecord)) (k : String) (v : VerdictRecord) :
    List (String × VerdictRecord) :=
  if m.any (fun p => p.1 == k) then
    m.map (fun p => if p.1 = k then (k, v) else p)
  else m ++ [(k, v)]

/-- Body of the `for r in results` loop of
`dedupe_results_by_utterance_id`. -/
def dedupeStep (m : List (String × VerdictRecord)) (r : VerdictRecord) :
    List (String × VerdictRecord) :=
  match r.utterance_id with
  | some uid => if uid = "" then m else insertLWW m uid r
  | none => m

/-- `dedupe_results_by_utterance_id` of `src/app.py` (lines 181-191):
`list(dedup.values())` after the loop. -/
def dedupe_results_by_utterance_id (results : List VerdictRecord) :
    List VerdictRecord :=
  (results.foldl dedupeStep []).map Prod.snd

/-- A JSON document as produced by a successful `json.loads`. -/
inductive PyJson where
  | null
  | bool (b : Bool)
  | num (n : Int)
  | str (s : String)
  | arr (elems : List PyJson)
  | obj (fields : List (String × PyJson))

/-- The message of the `RuntimeError` raised at line 138 of
`src/app.py`: the parse failure reason followed by the raw provider
output. -/
def parseFailMessage (e raw : String) : String :=
  "모델 응답 JSON 파싱 실패: " ++ e ++ "\n---raw---\n" ++ raw

/-- The response-handling tail of `call_openai_for_analysis`
(lines 134-138): `json.loads` is the external parameter `loads`; its
failure is converted into the error message carrying `raw`. -/
def handle_model_response {J : Type} (loads : String → Except String J)
    (raw : String) : Except String J :=
  match loads raw with
  | Except.ok doc => Except.ok doc
  | Except.error e => Except.error (parseFailMessage e raw)

/-- Spec-side shape of the time token `\d{1,2}:\d{2}(?::\d{2})?`:
one or two digits, a colon, two digits, and optionally a colon and two
more digits. -/
def timeTokenShape (tok : List Char) : Prop :=
  ∃ hh mm ss,
    tok = hh ++ ':' :: (mm ++ ss) ∧
    (hh.length = 1 ∨ hh.length = 2) ∧ (∀ c ∈ hh, pyIsDigit c = true) ∧
    mm.length = 2 ∧ (∀ c ∈ mm, pyIsDigit c = true) ∧
    (ss = [] ∨ ∃ s1 s2, ss = [':', s1, s2] ∧ pyIsDigit s1 = true ∧ pyIsDigit s2 = true)

/-- Spec-side decomposition of a dashed timestamp line: a time token,
optional whitespace, a dash-like separator, optional whitespace, and the
remainder (which, being the residue of a greedy `\s*`, does not start
with whitespace). -/
def dashSeparated (cs tok rem : List Char) : Prop :=
  ∃ ws1 d ws2,
    timeTokenShape tok ∧ d ∈ dashChars ∧
    (∀ c ∈ ws1, pyIsSpace c = true) ∧ (∀ c ∈ ws2, pyIsSpace c = true) ∧
    (∀ c, rem.head? = some c → pyIsSpace c = false) ∧
    cs = tok ++ ws1 ++ d :: (ws2 ++ rem)

/-- The non-empty utterance ids of the input, in input order. -/
def extractIds (results : List VerdictRecord) : List String :=
  results.filterMap (fun r =>
    match r.utterance_id with
    | some s => if s = "" then none else some s
    | none => none)

/-- Keys of the modelled dict, in insertion order. -/
def keysOf (m : List (String × VerdictRecord)) : List String := m.map Prod.fst

/-- Spec-side ordering of the reconciler output: the order in which each
unique id was first inserted into the mapping. -/
def firstInsertOrder (ids : List String) : List String :=
  ids.foldl (fun ks k => if k ∈ ks then ks else ks ++ [k]) []

/-- Invariant of the modelled dict: each stored record carries its own
key as a non-empty utterance id, and keys are distinct. -/
def WFmap (m : List (String × VerdictRecord)) : Prop :=
  (∀ p ∈ m, p.2.utterance_id = some p.1 ∧ p.1 ≠ "") ∧ (keysOf m).Nodup

/-! ### Basic lemmas about the segmenter -/

theorem length_numberLines (s : Nat) (ls : List String) :
    (numberLines s ls).length = ls.length := by
  induction ls generalizing s with
  | nil => rfl
  | cons ln rest ih => simp [numberLines, ih]

theorem getElem?_numberLines (s : Nat) (ls : List String) (i : Nat) :
    (numberLines s ls)[i]? = (ls[i]?).map (fun ln => lineToUtterance (s + i) ln) := by
  induction ls generalizing s i with
  | nil => simp [numberLines]
  | cons ln rest ih =>
    cases i with
    | zero => simp [numberLines]
    | succ n =>
      have harith : s + 1 + n = s + (n + 1) := by omega
      simp [numberLines, ih (s + 1) n, harith]

theorem lineToUtterance_line_no (i : Nat) (ln : String) :
    (lineToUtterance i ln).line_no = i := by
  cases h : firstTimeMatch ln with
  | none => simp [lineToUtterance, h]
  | some p => cases p with
    | mk t x => simp [lineToUtterance, h]

theorem lineToUtterance_id (i : Nat) (ln : String) :
    (lineToUtterance i ln).id = "u" ++ toString i := by
  cases h : firstTimeMatch ln with
  | none => simp [lineToUtterance, h]
  | some p => cases p with
    | mk t x => simp [lineToUtterance, h]

theorem mem_splitlinesAux (cs : List Char) :
    ∀ (acc : List Char) (b : Bool) (ln : String), ln ∈ splitlinesAux cs acc b →
      ∀ c ∈ ln.data, c ∈ cs ∨ c ∈ acc := by
  induction cs with
  | nil =>
    intro acc b ln hln c hc
    by_cases hacc : acc.isEmpty
    · simp [splitlinesAux, hacc] at hln
    · simp [splitlinesAux, hacc] at hln
      subst hln
      simp at hc
      exact Or.inr hc
  | cons ch rest ih =>
    intro acc b ln hln c hc
    by_cases h1 : (ch = '\n' && b) = true
    · rw [show splitlinesAux (ch :: rest) acc b = splitlinesAux rest acc false by
        simp [splitlinesAux, h1]] at hln
      rcases ih acc false ln hln c hc with h | h
      · exact Or.inl (List.mem_cons_of_mem _ h)
      · exact Or.inr h
    · by_cases h2 : pyIsLineBreak ch = true
      · rw [show splitlinesAux (ch :: rest) acc b =
            String.mk acc.reverse :: splitlinesAux rest [] (ch = '\r') by
          simp [splitlinesAux, h1, h2]] at hln
        rcases List.mem_cons.mp hln with h | h
        · subst h
          simp at hc
          exact Or.inr hc
        · rcases ih [] (ch = '\r') ln h c hc with h' | h'
          · exact Or.inl (List.mem_cons_of_mem _ h')
          · simp at h'
      · rw [show splitlinesAux (ch :: rest) acc b = splitlinesAux rest (ch :: acc) false by
          simp [splitlinesAux, h1, h2]] at hln
        rcases ih (ch :: acc) false ln hln c hc with h | h
        · exact Or.inl (List.mem_cons_of_mem _ h)
        · rcases List.mem_cons.mp h with h' | h'
          · exact Or.inl (h' ▸ List.mem_cons_self _ _)
          · exact Or.inr h'

theorem mem_pySplitlines (s : String) (ln : String) (h : ln ∈ pySplitlines s) :
    ∀ c ∈ ln.data, c ∈ s.data := by
  intro c hc
  rcases mem_splitlinesAux s.data [] false ln h c hc with h' | h'
  · exact h'
  · simp at h'

theorem pyStrip_all_space (s : String) (h : ∀ c ∈ s.data, pyIsSpace c = true) :
    pyStrip s = "" := by
  unfold pyStrip
  have h1 : s.data.dropWhile pyIsSpace = [] := List.dropWhile_eq_nil_iff.mpr h
  rw [h1]
  rfl

/-! ### Lemmas about the reconciler -/

theorem dedupeStep_eq_none (m : List (String × VerdictRecord)) (r : VerdictRecord)
    (h : r.utterance_id = none) : dedupeStep m r = m := by
  simp [dedupeStep, h]

theorem dedupeStep_eq_some (m : List (String × VerdictRecord)) (r : VerdictRecord)
    (uid : String) (h : r.utterance_id = some uid) :
    dedupeStep m r = if uid = "" then m else insertLWW m uid r := by
  simp [dedupeStep, h]

theorem any_key_iff (m : List (String × VerdictRecord)) (k : String) :
    (m.any (fun p => p.1 == k) = true) ↔ k ∈ keysOf m := by
  rw [List.any_eq_true]
  unfold keysOf
  rw [List.mem_map]
  constructor
  · rintro ⟨p, hp, hbeq⟩
    exact ⟨p, hp, by simpa using hbeq⟩
  · rintro ⟨p, hp, heq⟩
    exact ⟨p, hp, by simp [heq]⟩

theorem keysOf_insertLWW (m : List (String × VerdictRecord)) (k : String)
    (v : VerdictRecord) :
    keysOf (insertLWW m k v) =
      if k ∈ keysOf m then keysOf m else keysOf m ++ [k] := by
  unfold insertLWW
  by_cases hany : m.any (fun p => p.1 == k) = true
  · rw [if_pos hany, if_pos ((any_key_iff m k).mp hany)]
    unfold keysOf
    rw [List.map_map]
    exact List.map_congr_left (fun p _ => by
      by_cases hp : p.1 = k <;> simp [hp])
  · rw [if_neg hany, if_neg (fun hmem => hany ((any_key_iff m k).mpr hmem))]
    simp [keysOf]

theorem filter_key_eq_nil (m : List (String × VerdictRecord)) (k : String)
    (h : k ∉ keysOf m) :
    m.filter (fun p => p.1 == k) = [] := by
  rw [List.filter_eq_nil_iff]
  intro p hp
  simp only [beq_iff_eq]
  intro hk
  exact h (hk ▸ List.mem_map.mpr ⟨p, hp, rfl⟩)

theorem filter_key_overwrite (k : String) (v : VerdictRecord) :
    ∀ m : List (String × VerdictRecord), (keysOf m).Nodup → k ∈ keysOf m →
      (m.map (fun p => if p.1 = k then (k, v) else p)).filter (fun p => p.1 == k) =
        [(k, v)] := by
  intro m
  induction m with
  | nil => intro _ hmem; simp [keysOf] at hmem
  | cons p m ih =>
    intro hnd hmem
    have hnd' : (keysOf m).Nodup := (List.nodup_cons.mp hnd).2
    have hhead : p.1 ∉ keysOf m := (List.nodup_cons.mp hnd).1
    by_cases hp : p.1 = k
    · subst hp
      rw [List.map_cons, if_pos rfl, List.filter_cons_of_pos (by simp)]
      have hid : m.map (fun q => if q.1 = p.1 then (p.1, v) else q) = m.map id :=
        List.map_congr_left (fun q hq => by
          have hne : q.1 ≠ p.1 := fun he => hhead (he ▸ List.mem_map.mpr ⟨q, hq, rfl⟩)
          simp [hne])
      rw [hid, List.map_id, filter_key_eq_nil m p.1 hhead]
    · rw [List.map_cons, if_neg hp, List.filter_cons_of_neg (by simp [hp])]
      have hcons : keysOf (p :: m) = p.1 :: keysOf m := rfl
      rw [hcons] at hmem
      have hmem' : k ∈ keysOf m := by
        rcases List.mem_cons.mp hmem with h | h
        · exact absurd h.symm hp
        · exact h
      exact ih hnd' hmem'

theorem filter_key_insertLWW_self (m : List (String × VerdictRecord)) (k : String)
    (v : VerdictRecord) (hnd : (keysOf m).Nodup) :
    (insertLWW m k v).filter (fun p => p.1 == k) = [(k, v)] := by
  unfold insertLWW
  by_cases hany : m.any (fun p => p.1 == k) = true
  · rw [if_pos hany]
    exact filter_key_overwrite k v m hnd ((any_key_iff m k).mp hany)
  · rw [if_neg hany, List.filter_append,
      filter_key_eq_nil m k (fun hmem => hany ((any_key_iff m k).mpr hmem))]
    simp

theorem filter_key_overwrite_other (k k' : String) (v : VerdictRecord) (h : k' ≠ k) :
    ∀ m : List (String × VerdictRecord),
      (m.map (fun p => if p.1 = k then (k, v) else p)).filter (fun p => p.1 == k') =
        m.filter (fun p => p.1 == k') := by
  intro m
  induction m with
  | nil => rfl
  | cons p m ih =>
    rw [List.map_cons]
    by_cases hp : p.1 = k
    · rw [if_pos hp, List.filter_cons_of_neg (by simp [Ne.symm h]),
        List.filter_cons_of_neg (by simp [hp, Ne.symm h])]
      exact ih
    · rw [if_neg hp]
      by_cases hp' : p.1 = k'
      · rw [List.filter_cons_of_pos (by simp [hp']),
          List.filter_cons_of_pos (by simp [hp']), ih]
      · rw [List.filter_cons_of_neg (by simp [hp']),
          List.filter_cons_of_neg (by simp [hp'])]
        exact ih

theorem filter_key_insertLWW_other (m : List (String × VerdictRecord))
    (k k' : String) (v : VerdictRecord) (h : k' ≠ k) :
    (insertLWW m k v).filter (fun p => p.1 == k') =
      m.filter (fun p => p.1 == k') := by
  unfold insertLWW
  by_cases hany : m.any (fun p => p.1 == k) = true
  · rw [if_pos hany]
    exact filter_key_overwrite_other k k' v h m
  · rw [if_neg hany, List.filter_append]
    simp [Ne.symm h]

theorem filter_key_dedupeStep_other (m : List (String × VerdictRecord))
    (r : VerdictRecord) (k : String) (h : r.utterance_id ≠ some k) :
    (dedupeStep m r).filter (fun p => p.1 == k) =
      m.filter (fun p => p.1 == k) := by
  cases hid : r.utterance_id with
  | none => rw [dedupeStep_eq_none m r hid]
  | some uid =>
    rw [dedupeStep_eq_some m r uid hid]
    by_cases he : uid = ""
    · rw [if_pos he]
    · rw [if_neg he]
      exact filter_key_insertLWW_other m uid k r (fun hk => h (hid ▸ hk ▸ rfl))

theorem keysOf_dedupeStep_nodup (m : List (String × VerdictRecord))
    (r : VerdictRecord) (hnd : (keysOf m).Nodup) :
    (keysOf (dedupeStep m r)).Nodup := by
  cases hid : r.utterance_id with
  | none => rw [dedupeStep_eq_none m r hid]; exact hnd
  | some uid =>
    rw [dedupeStep_eq_some m r uid hid]
    by_cases he : uid = ""
    · rw [if_pos he]; exact hnd
    · rw [if_neg he, keysOf_insertLWW]
      by_cases hmem : uid ∈ keysOf m
      · rw [if_pos hmem]; exact hnd
      · rw [if_neg hmem, List.nodup_append]
        exact ⟨hnd, List.nodup_singleton uid, by
          intro a ha hb
          simp at hb
          exact hmem (hb ▸ ha)⟩

theorem WFmap_dedupeStep (m : List (String × VerdictRecord)) (r : VerdictRecord)
    (hwf : WFmap m) : WFmap (dedupeStep m r) := by
  refine ⟨?_, keysOf_dedupeStep_nodup m r hwf.2⟩
  cases hid : r.utterance_id with
  | none => rw [dedupeStep_eq_none m r hid]; exact hwf.1
  | some uid =>
    rw [dedupeStep_eq_some m r uid hid]
    by_cases he : uid = ""
    · rw [if_pos he]; exact hwf.1
    · rw [if_neg he]
      unfold insertLWW
      by_cases hany : m.any (fun p => p.1 == uid) = true
      · rw [if_pos hany]
        intro p hp
        obtain ⟨q, hq, rfl⟩ := List.mem_map.mp hp
        by_cases hq1 : q.1 = uid
        · simp [hq1, hid, he]
        · simpa [hq1] using hwf.1 q hq
      · rw [if_neg hany]
        intro p hp
        rcases List.mem_append.mp hp with h | h
        · exact hwf.1 p h
        · simp at h
          subst h
          exact ⟨hid, he⟩

theorem WFmap_dedupeFold (rs : List VerdictRecord) :
    ∀ m : List (String × VerdictRecord), WFmap m → WFmap (rs.foldl dedupeStep m) := by
  induction rs with
  | nil => intro m hm; exact hm
  | cons r rs ih =>
    intro m hm
    rw [List.foldl_cons]
    exact ih (dedupeStep m r) (WFmap_dedupeStep m r hm)

theorem getLast?_cons_of_ne_nil {α : Type} (a : α) (l : List α) (h : l ≠ []) :
    (a :: l).getLast? = l.getLast? := by
  cases l with
  | nil => exact absurd rfl h
  | cons b l => exact List.getLast?_cons_cons

theorem dedupeFold_filter_key (k : String) (hk : k ≠ "") (rs : List VerdictRecord) :
    ∀ m : List (String × VerdictRecord), (keysOf m).Nodup →
      (rs.foldl dedupeStep m).filter (fun p => p.1 == k) =
        (match (rs.filter (fun r => r.utterance_id == some k)).getLast? with
         | some r => [(k, r)]
         | none => m.filter (fun p => p.1 == k)) := by
  induction rs with
  | nil => intro m hm; simp
  | cons r rs ih =>
    intro m hm
    rw [List.foldl_cons, ih (dedupeStep m r) (keysOf_dedupeStep_nodup m r hm)]
    by_cases hP : (r.utterance_id == some k) = true
    · have hrid : r.utterance_id = some k := by simpa using hP
      rw [show List.filter (fun r => r.utterance_id == some k) (r :: rs) =
          r :: List.filter (fun r => r.utterance_id == some k) rs from
        List.filter_cons_of_pos hP]
      cases htail : (rs.filter (fun r => r.utterance_id == some k)).getLast? with
      | some rlast =>
        have hne : rs.filter (fun r => r.utterance_id == some k) ≠ [] := by
          intro hnil
          rw [hnil] at htail
          exact absurd htail (by simp)
        rw [getLast?_cons_of_ne_nil _ _ hne, htail]
      | none =>
        have hnil : rs.filter (fun r => r.utterance_id == some k) = [] :=
          List.getLast?_eq_none_iff.mp htail
        rw [hnil]
        show (dedupeStep m r).filter (fun p => p.1 == k) = [(k, r)]
        rw [dedupeStep_eq_some m r k hrid, if_neg hk]
        exact filter_key_insertLWW_self m k r hm
    · rw [show List.filter (fun r => r.utterance_id == some k) (r :: rs) =
          List.filter (fun r => r.utterance_id == some k) rs from
        List.filter_cons_of_neg hP]
      cases htail : (rs.filter (fun r => r.utterance_id == some k)).getLast? with
      | some rlast => rfl
      | none =>
        exact filter_key_dedupeStep_other m r k (by simpa using hP)

theorem filter_snd_eq (m : List (String × VerdictRecord))
    (hwf : ∀ p ∈ m, p.2.utterance_id = some p.1) (k : String) :
    (m.map Prod.snd).filter (fun r => r.utterance_id == some k) =
      (m.filter (fun p => p.1 == k)).map Prod.snd := by
  induction m with
  | nil => rfl
  | cons p m ih =>
    have hp := hwf p (List.mem_cons_self p m)
    have ih' := ih (fun q hq => hwf q (List.mem_cons_of_mem p hq))
    by_cases hk : p.1 = k
    · rw [List.map_cons, List.filter_cons_of_pos (by simp [hp, hk]),
        List.filter_cons_of_pos (by simp [hk]), List.map_cons, ih']
    · rw [List.map_cons, List.filter_cons_of_neg (by simp [hp, hk]),
        List.filter_cons_of_neg (by simp [hk]), ih']

theorem keysOf_dedupeFold (rs : List VerdictRecord) :
    ∀ m : List (String × VerdictRecord),
      keysOf (rs.foldl dedupeStep m) =
        (extractIds rs).foldl (fun ks k => if k ∈ ks then ks else ks ++ [k]) (keysOf m) := by
  induction rs with
  | nil => intro m; rfl
  | cons r rs ih =>
    intro m
    rw [List.foldl_cons, ih (dedupeStep m r)]
    cases hid : r.utterance_id with
    | none =>
      rw [dedupeStep_eq_none m r hid, show extractIds (r :: rs) = extractIds rs by
        simp [extractIds, List.filterMap_cons, hid]]
    | some uid =>
      rw [dedupeStep_eq_some m r uid hid]
      by_cases he : uid = ""
      · rw [if_pos he, show extractIds (r :: rs) = extractIds rs by
          simp [extractIds, List.filterMap_cons, hid, he]]
      · rw [if_neg he, show extractIds (r :: rs) = uid :: extractIds rs by
          simp [extractIds, List.filterMap_cons, hid, he]]
        rw [List.foldl_cons, keysOf_insertLWW]

theorem WFmap_nil : WFmap [] :=
  ⟨fun p hp => absurd hp (List.not_mem_nil p), List.nodup_nil⟩

theorem dedupeFold_filter_good (rs : List VerdictRecord) :
    ∀ m : List (String × VerdictRecord),
      rs.foldl dedupeStep m =
        (rs.filter (fun r => uidPresent r.utterance_id)).foldl dedupeStep m := by
  induction rs with
  | nil => intro m; rfl
  | cons r rs ih =>
    intro m
    rw [List.foldl_cons]
    cases hid : r.utterance_id with
    | none =>
      rw [dedupeStep_eq_none m r hid,
        show (r :: rs).filter (fun r => uidPresent r.utterance_id) =
            rs.filter (fun r => uidPresent r.utterance_id) from
          List.filter_cons_of_neg (by simp [uidPresent, hid]), ih]
    | some uid =>
      rw [dedupeStep_eq_some m r uid hid]
      by_cases he : uid = ""
      · rw [if_pos he,
          show (r :: rs).filter (fun r => uidPresent r.utterance_id) =
              rs.filter (fun r => uidPresent r.utterance_id) from
            List.filter_cons_of_neg (by simp [uidPresent, hid, he]), ih]
      · rw [if_neg he,
          show (r :: rs).filter (fun r => uidPresent r.utterance_id) =
              r :: rs.filter (fun r => uidPresent r.utterance_id) from
            List.filter_cons_of_pos (by simp [uidPresent, hid, he]),
          List.foldl_cons, dedupeStep_eq_some _ r uid hid, if_neg he, ih]

theorem dedupeFold_all_new (rs : List VerdictRecord) :
    ∀ m : List (String × VerdictRecord),
      (∀ r ∈ rs, uidPresent r.utterance_id = true) → (extractIds rs).Nodup →
      (∀ kk ∈ extractIds rs, kk ∉ keysOf m) →
      (rs.foldl dedupeStep m).map Prod.snd = m.map Prod.snd ++ rs := by
  induction rs with
  | nil => intro m _ _ _; simp
  | cons r rs ih =>
    intro m hall hnd hdisj
    have hgood := hall r (List.mem_cons_self r rs)
    cases hid : r.utterance_id with
    | none => rw [hid] at hgood; simp [uidPresent] at hgood
    | some uid =>
      have hne : uid ≠ "" := by rw [hid] at hgood; simpa [uidPresent] using hgood
      have hext : extractIds (r :: rs) = uid :: extractIds rs := by
        simp [extractIds, List.filterMap_cons, hid, hne]
      have huidmem : uid ∉ keysOf m :=
        hdisj uid (hext ▸ List.mem_cons_self uid (extractIds rs))
      rw [List.foldl_cons, dedupeStep_eq_some m r uid hid, if_neg hne]
      have hins : insertLWW m uid r = m ++ [(uid, r)] := by
        unfold insertLWW
        rw [if_neg (fun h => huidmem ((any_key_iff m uid).mp h))]
      rw [hins]
      rw [hext] at hnd hdisj
      have hnd' := (List.nodup_cons.mp hnd).2
      have hnotin := (List.nodup_cons.mp hnd).1
      have hdisj' : ∀ kk ∈ extractIds rs, kk ∉ keysOf (m ++ [(uid, r)]) := by
        intro kk hkk hmem
        have h1 : kk ∉ keysOf m := hdisj kk (List.mem_cons_of_mem uid hkk)
        have h2 : kk ≠ uid := fun h => hnotin (h ▸ hkk)
        have : kk ∈ keysOf m ++ [uid] := by
          simpa [keysOf, List.map_append] using hmem
        rcases List.mem_append.mp this with h | h
        · exact h1 h
        · exact h2 (by simpa using h)
      rw [ih (m ++ [(uid, r)]) (fun q hq => hall q (List.mem_cons_of_mem r hq)) hnd' hdisj',
        List.map_append]
      simp

/-! ### Lemmas about the dashed timestamp pattern -/

theorem digit_ne_colon (c : Char) (h : pyIsDigit c = true) : c ≠ ':' := by
  intro he
  subst he
  exact absurd h (by decide)

theorem space_ne_colon (c : Char) (h : pyIsSpace c = true) : c ≠ ':' := by
  intro he
  subst he
  exact absurd h (by decide)

theorem dash_mem_facts (d : Char) (h : d ∈ dashChars) :
    pyIsSpace d = false ∧ d ≠ ':' := by
  have h3 : d = '-' ∨ d = '–' ∨ d = '—' := by simpa [dashChars] using h
  rcases h3 with rfl | rfl | rfl <;> exact ⟨by decide, by decide⟩

theorem dropWhile_append_of_all (p : Char → Bool) (ws rest : List Char)
    (hws : ∀ c ∈ ws, p c = true)
    (hhd : ∀ c, rest.head? = some c → p c = false) :
    (ws ++ rest).dropWhile p = rest := by
  induction ws with
  | nil =>
    cases rest with
    | nil => rfl
    | cons c t =>
      have hc := hhd c rfl
      simp [List.dropWhile_cons, hc]
  | cons w ws ih =>
    have hw := hws w (List.mem_cons_self w ws)
    simp [List.dropWhile_cons, hw, ih (fun c hc => hws c (List.mem_cons_of_mem w hc))]

theorem head?_dropWhile_false (p : Char → Bool) (l : List Char) :
    ∀ c, (l.dropWhile p).head? = some c → p c = false := by
  induction l with
  | nil => intro c h; simp at h
  | cons a l ih =>
    intro c h
    by_cases hp : p a = true
    · rw [List.dropWhile_cons, if_pos hp] at h
      exact ih c h
    · rw [List.dropWhile_cons, if_neg hp] at h
      simp at h
      rw [← h]
      exact Bool.eq_false_iff.mpr hp

theorem matchHourColon_sound_one (h1 : Char) (rest : List Char)
    (hd : pyIsDigit h1 = true) :
    matchHourColon (h1 :: ':' :: rest) = some ([h1], rest) := by
  simp [matchHourColon, hd]

theorem matchHourColon_sound_two (h1 h2 : Char) (rest : List Char)
    (hd1 : pyIsDigit h1 = true) (hd2 : pyIsDigit h2 = true) :
    matchHourColon (h1 :: h2 :: ':' :: rest) = some ([h1, h2], rest) := by
  have hne : h2 ≠ ':' := digit_ne_colon h2 hd2
  simp [matchHourColon, hd1, hd2, hne]

theorem matchHourColon_inv (cs hh rest : List Char)
    (h : matchHourColon cs = some (hh, rest)) :
    cs = hh ++ ':' :: rest ∧
      ((∃ c1, hh = [c1] ∧ pyIsDigit c1 = true) ∨
       (∃ c1 c2, hh = [c1, c2] ∧ pyIsDigit c1 = true ∧ pyIsDigit c2 = true)) := by
  rcases cs with _ | ⟨c1, cs1⟩
  · simp [matchHourColon] at h
  rcases cs1 with _ | ⟨c2, cs2⟩
  · simp [matchHourColon] at h
  by_cases hd1 : pyIsDigit c1 = true
  · by_cases hc2 : c2 = ':'
    · subst hc2
      simp [matchHourColon, hd1] at h
      obtain ⟨hh1, hh2⟩ := h
      subst hh1
      subst hh2
      exact ⟨rfl, Or.inl ⟨c1, rfl, hd1⟩⟩
    · by_cases hd2 : pyIsDigit c2 = true
      · rcases cs2 with _ | ⟨c3, cs3⟩
        · simp [matchHourColon, hd1, hc2, hd2] at h
        · by_cases hc3 : c3 = ':'
          · subst hc3
            simp [matchHourColon, hd1, hc2, hd2] at h
            obtain ⟨hh1, hh2⟩ := h
            subst hh1
            subst hh2
            exact ⟨rfl, Or.inr ⟨c1, c2, rfl, hd1, hd2⟩⟩
          · simp [matchHourColon, hd1, hc2, hd2, hc3] at h
      · simp [matchHourColon, hd1, hc2, hd2] at h
  · simp [matchHourColon, hd1] at h

theorem matchMinutes_sound (m1 m2 : Char) (rest : List Char)
    (hd1 : pyIsDigit m1 = true) (hd2 : pyIsDigit m2 = true) :
    matchMinutes (m1 :: m2 :: rest) = some ([m1, m2], rest) := by
  simp [matchMinutes, hd1, hd2]

theorem matchMinutes_inv (cs mm rest : List Char)
    (h : matchMinutes cs = some (mm, rest)) :
    cs = mm ++ rest ∧
      ∃ m1 m2, mm = [m1, m2] ∧ pyIsDigit m1 = true ∧ pyIsDigit m2 = true := by
  rcases cs with _ | ⟨m1, _ | ⟨m2, cs2⟩⟩
  · simp [matchMinutes] at h
  · simp [matchMinutes] at h
  · by_cases hd : (pyIsDigit m1 && pyIsDigit m2) = true
    · rw [show matchMinutes (m1 :: m2 :: cs2) = some ([m1, m2], cs2) from by
        simp [matchMinutes, hd]] at h
      have h' := Option.some.inj h
      have h1 : mm = [m1, m2] := (congrArg Prod.fst h').symm
      have h2 : rest = cs2 := (congrArg Prod.snd h').symm
      subst h1
      subst h2
      have hd' : pyIsDigit m1 = true ∧ pyIsDigit m2 = true := by
        simpa [Bool.and_eq_true] using hd
      exact ⟨rfl, m1, m2, rfl, hd'.1, hd'.2⟩
    · simp [matchMinutes, hd] at h

theorem matchOptSeconds_noop (cs : List Char)
    (h : ∀ c, cs.head? = some c → c ≠ ':') :
    matchOptSeconds cs = ([], cs) := by
  rcases cs with _ | ⟨c0, _ | ⟨s1, _ | ⟨s2, rest⟩⟩⟩
  · rfl
  · rfl
  · rfl
  · have hc0 : c0 ≠ ':' := h c0 rfl
    simp [matchOptSeconds, hc0]

theorem matchOptSeconds_consume (s1 s2 : Char) (rest : List Char)
    (hd1 : pyIsDigit s1 = true) (hd2 : pyIsDigit s2 = true) :
    matchOptSeconds (':' :: s1 :: s2 :: rest) = ([':', s1, s2], rest) := by
  simp [matchOptSeconds, hd1, hd2]

theorem matchOptSeconds_inv (cs ss rest : List Char)
    (h : matchOptSeconds cs = (ss, rest)) :
    cs = ss ++ rest ∧
      (ss = [] ∨ ∃ s1 s2, ss = [':', s1, s2] ∧ pyIsDigit s1 = true ∧ pyIsDigit s2 = true) := by
  rcases cs with _ | ⟨c0, _ | ⟨s1, _ | ⟨s2, rest0⟩⟩⟩
  · have h' : (([] : List Char), ([] : List Char)) = (ss, rest) := h
    have h1 : ss = [] := (congrArg Prod.fst h').symm
    have h2 : rest = [] := (congrArg Prod.snd h').symm
    subst h1
    subst h2
    exact ⟨rfl, Or.inl rfl⟩
  · have h' : (([] : List Char), [c0]) = (ss, rest) := h
    have h1 : ss = [] := (congrArg Prod.fst h').symm
    have h2 : rest = [c0] := (congrArg Prod.snd h').symm
    subst h1
    subst h2
    exact ⟨rfl, Or.inl rfl⟩
  · have h' : (([] : List Char), [c0, s1]) = (ss, rest) := h
    have h1 : ss = [] := (congrArg Prod.fst h').symm
    have h2 : rest = [c0, s1] := (congrArg Prod.snd h').symm
    subst h1
    subst h2
    exact ⟨rfl, Or.inl rfl⟩
  · by_cases hc : (c0 = ':' && pyIsDigit s1 && pyIsDigit s2) = true
    · rw [show matchOptSeconds (c0 :: s1 :: s2 :: rest0) = ([':', s1, s2], rest0) from by
        simp [matchOptSeconds, hc]] at h
      have h1 : ss = [':', s1, s2] := (congrArg Prod.fst h).symm
      have h2 : rest = rest0 := (congrArg Prod.snd h).symm
      have hc' : c0 = ':' ∧ pyIsDigit s1 = true ∧ pyIsDigit s2 = true := by
        simpa [Bool.and_eq_true, and_assoc] using hc
      subst h1
      subst h2
      rw [hc'.1]
      exact ⟨rfl, Or.inr ⟨s1, s2, rfl, hc'.2.1, hc'.2.2⟩⟩
    · rw [show matchOptSeconds (c0 :: s1 :: s2 :: rest0) =
          ([], c0 :: s1 :: s2 :: rest0) from by simp [matchOptSeconds, hc]] at h
      have h1 : ss = [] := (congrArg Prod.fst h).symm
      have h2 : rest = c0 :: s1 :: s2 :: rest0 := (congrArg Prod.snd h).symm
      subst h1
      subst h2
      exact ⟨rfl, Or.inl rfl⟩

theorem capRest_no_newline (t : List Char) (h : '\n' ∉ t) : capRest t = some t := by
  simp [capRest, h]

theorem matchTimeToken_sound (tok rest0 : List Char) (hshape : timeTokenShape tok)
    (hhd : ∀ c, rest0.head? = some c → c ≠ ':') :
    matchTimeToken (tok ++ rest0) = some (tok, rest0) := by
  obtain ⟨hh, mm, ss, htok, hlen, hdig, hmmlen, hmmdig, hss⟩ := hshape
  obtain ⟨m1, m2, hmm⟩ := List.length_eq_two.mp hmmlen
  subst hmm
  subst htok
  have hm1 : pyIsDigit m1 = true := hmmdig m1 (by simp)
  have hm2 : pyIsDigit m2 = true := hmmdig m2 (by simp)
  rcases hlen with h1 | h2
  · obtain ⟨c1, hc1⟩ := List.length_eq_one.mp h1
    subst hc1
    have hd1 : pyIsDigit c1 = true := hdig c1 (by simp)
    rcases hss with hssnil | ⟨s1, s2, hsseq, hs1, hs2⟩
    · subst hssnil
      rw [show ([c1] ++ ':' :: ([m1, m2] ++ [])) ++ rest0 =
          c1 :: ':' :: m1 :: m2 :: rest0 from by simp]
      simp [matchTimeToken, matchHourColon_sound_one c1 (m1 :: m2 :: rest0) hd1,
        matchMinutes_sound m1 m2 rest0 hm1 hm2, matchOptSeconds_noop rest0 hhd]
    · subst hsseq
      rw [show ([c1] ++ ':' :: ([m1, m2] ++ [':', s1, s2])) ++ rest0 =
          c1 :: ':' :: m1 :: m2 :: ':' :: s1 :: s2 :: rest0 from by simp]
      simp [matchTimeToken,
        matchHourColon_sound_one c1 (m1 :: m2 :: ':' :: s1 :: s2 :: rest0) hd1,
        matchMinutes_sound m1 m2 (':' :: s1 :: s2 :: rest0) hm1 hm2,
        matchOptSeconds_consume s1 s2 rest0 hs1 hs2]
  · obtain ⟨c1, c2, hc⟩ := List.length_eq_two.mp h2
    subst hc
    have hd1 : pyIsDigit c1 = true := hdig c1 (by simp)
    have hd2 : pyIsDigit c2 = true := hdig c2 (by simp)
    rcases hss with hssnil | ⟨s1, s2, hsseq, hs1, hs2⟩
    · subst hssnil
      rw [show ([c1, c2] ++ ':' :: ([m1, m2] ++ [])) ++ rest0 =
          c1 :: c2 :: ':' :: m1 :: m2 :: rest0 from by simp]
      simp [matchTimeToken, matchHourColon_sound_two c1 c2 (m1 :: m2 :: rest0) hd1 hd2,
        matchMinutes_sound m1 m2 rest0 hm1 hm2, matchOptSeconds_noop rest0 hhd]
    · subst hsseq
      rw [show ([c1, c2] ++ ':' :: ([m1, m2] ++ [':', s1, s2])) ++ rest0 =
          c1 :: c2 :: ':' :: m1 :: m2 :: ':' :: s1 :: s2 :: rest0 from by simp]
      simp [matchTimeToken,
        matchHourColon_sound_two c1 c2 (m1 :: m2 :: ':' :: s1 :: s2 :: rest0) hd1 hd2,
        matchMinutes_sound m1 m2 (':' :: s1 :: s2 :: rest0) hm1 hm2,
        matchOptSeconds_consume s1 s2 rest0 hs1 hs2]

theorem matchTimeToken_inv (cs tok rest : List Char)
    (h : matchTimeToken cs = some (tok, rest)) :
    cs = tok ++ rest ∧ timeTokenShape tok := by
  unfold matchTimeToken at h
  cases h1 : matchHourColon cs with
  | none => rw [h1] at h; simp at h
  | some pr1 =>
    obtain ⟨hh, r1⟩ := pr1
    rw [h1] at h
    simp only at h
    cases h2 : matchMinutes r1 with
    | none => rw [h2] at h; simp at h
    | some pr2 =>
      obtain ⟨mm, r2⟩ := pr2
      rw [h2] at h
      simp only at h
      rcases hps : matchOptSeconds r2 with ⟨ss, r3⟩
      rw [hps] at h
      simp only at h
      have h' := Option.some.inj h
      have htok : tok = hh ++ ':' :: (mm ++ ss) := (congrArg Prod.fst h').symm
      have hrest : rest = r3 := (congrArg Prod.snd h').symm
      obtain ⟨hcs1, hhshape⟩ := matchHourColon_inv cs hh r1 h1
      obtain ⟨hr1, m1, m2, hmmeq, hm1, hm2⟩ := matchMinutes_inv r1 mm r2 h2
      obtain ⟨hr2, hssshape⟩ := matchOptSeconds_inv r2 ss r3 hps
      subst htok
      subst hrest
      constructor
      · rw [hcs1, hr1, hr2]
        simp [List.append_assoc]
      · refine ⟨hh, mm, ss, rfl, ?_, ?_, ?_, ?_, hssshape⟩
        · rcases hhshape with ⟨c1, hc, _⟩ | ⟨c1, c2, hc, _, _⟩
          · exact Or.inl (by rw [hc]; rfl)
          · exact Or.inr (by rw [hc]; rfl)
        · rcases hhshape with ⟨c1, hc, hd1⟩ | ⟨c1, c2, hc, hd1, hd2⟩
          · intro c hc'
            rw [hc] at hc'
            simp at hc'
            exact hc' ▸ hd1
          · intro c hc'
            rw [hc] at hc'
            simp at hc'
            rcases hc' with rfl | rfl
            · exact hd1
            · exact hd2
        · rw [hmmeq]; rfl
        · intro c hc'
          rw [hmmeq] at hc'
          simp at hc'
          rcases hc' with rfl | rfl
          · exact hm1
          · exact hm2

theorem matchDashTime_iff (cs tok rem : List Char)
    (hws : cs.dropWhile pyIsSpace = cs) (hnl : '\n' ∉ cs) :
    matchDashTime cs = some (String.mk tok, String.mk rem) ↔ dashSeparated cs tok rem := by
  constructor
  · intro h
    unfold matchDashTime at h
    rw [hws] at h
    cases h1 : matchTimeToken cs with
    | none => rw [h1] at h; simp at h
    | some pr =>
      obtain ⟨tok0, rest1⟩ := pr
      rw [h1] at h
      simp only at h
      obtain ⟨hcs1, hshape⟩ := matchTimeToken_inv cs tok0 rest1 h1
      cases h2 : rest1.dropWhile pyIsSpace with
      | nil => rw [h2] at h; simp at h
      | cons d rest2 =>
        rw [h2] at h
        simp only at h
        by_cases hd : d ∈ dashChars
        · rw [if_pos hd] at h
          cases h3 : capRest (rest2.dropWhile pyIsSpace) with
          | none => rw [h3] at h; simp at h
          | some g2 =>
            rw [h3] at h
            simp only at h
            have h' := Option.some.inj h
            have htok : tok0 = tok := by
              have hfst := congrArg Prod.fst h'
              simp only at hfst
              injection hfst
            have hrem : g2 = rem := by
              have hsnd := congrArg Prod.snd h'
              simp only at hsnd
              injection hsnd
            subst htok
            have hr1 : rest1.takeWhile pyIsSpace ++ (d :: rest2) = rest1 := by
              rw [← h2]
              exact List.takeWhile_append_dropWhile pyIsSpace rest1
            have hr2 : rest2.takeWhile pyIsSpace ++ rest2.dropWhile pyIsSpace = rest2 :=
              List.takeWhile_append_dropWhile pyIsSpace rest2
            have hsub1 : ∀ c ∈ rest2.dropWhile pyIsSpace, c ∈ cs := by
              intro c hc
              have hc2 : c ∈ rest2 := List.Sublist.mem hc (List.dropWhile_sublist pyIsSpace)
              have hc3 : c ∈ rest1 := by
                rw [← hr1]
                exact List.mem_append.mpr (Or.inr (List.mem_cons_of_mem d hc2))
              rw [hcs1]
              exact List.mem_append.mpr (Or.inr hc3)
            have hnl0 : '\n' ∉ rest2.dropWhile pyIsSpace := fun hm => hnl (hsub1 '\n' hm)
            have hcapeq : some (rest2.dropWhile pyIsSpace) = some g2 :=
              (capRest_no_newline _ hnl0).symm.trans h3
            have hg2 : rest2.dropWhile pyIsSpace = g2 := Option.some.inj hcapeq
            subst hrem
            refine ⟨rest1.takeWhile pyIsSpace, d, rest2.takeWhile pyIsSpace, hshape, hd,
              fun c hc => List.mem_takeWhile_imp hc,
              fun c hc => List.mem_takeWhile_imp hc,
              fun c hc => by
                rw [← hg2] at hc
                exact head?_dropWhile_false pyIsSpace rest2 c hc, ?_⟩
            calc cs = tok0 ++ rest1 := hcs1
              _ = tok0 ++ (rest1.takeWhile pyIsSpace ++ (d :: rest2)) := by rw [hr1]
              _ = tok0 ++ (rest1.takeWhile pyIsSpace ++
                    (d :: (rest2.takeWhile pyIsSpace ++ g2))) := by
                  rw [show rest2.takeWhile pyIsSpace ++ g2 = rest2 from by
                    rw [← hg2]; exact hr2]
              _ = tok0 ++ rest1.takeWhile pyIsSpace ++
                    d :: (rest2.takeWhile pyIsSpace ++ g2) := by simp [List.append_assoc]
        · rw [if_neg hd] at h
          simp at h
  · rintro ⟨ws1, d, ws2, hshape, hd, hws1, hws2, hhead, heq⟩
    have hdfacts := dash_mem_facts d hd
    have hnlrem : '\n' ∉ rem := by
      intro hm
      apply hnl
      rw [heq]
      exact List.mem_append.mpr (Or.inr
        (List.mem_cons_of_mem d (List.mem_append.mpr (Or.inr hm))))
    have hhd' : ∀ c, (ws1 ++ d :: (ws2 ++ rem)).head? = some c → c ≠ ':' := by
      cases hws1case : ws1 with
      | nil =>
        intro c hc
        simp at hc
        exact hc ▸ hdfacts.2
      | cons w ws =>
        intro c hc
        simp at hc
        have hw : pyIsSpace w = true := hws1 w (hws1case ▸ List.mem_cons_self w ws)
        exact hc ▸ space_ne_colon w hw
    have ha : matchTimeToken (tok ++ (ws1 ++ d :: (ws2 ++ rem))) =
        some (tok, ws1 ++ d :: (ws2 ++ rem)) :=
      matchTimeToken_sound tok _ hshape hhd'
    have hb : (ws1 ++ d :: (ws2 ++ rem)).dropWhile pyIsSpace = d :: (ws2 ++ rem) :=
      dropWhile_append_of_all pyIsSpace ws1 (d :: (ws2 ++ rem)) hws1
        (fun c hc => by
          simp at hc
          exact hc ▸ hdfacts.1)
    have hc : (ws2 ++ rem).dropWhile pyIsSpace = rem :=
      dropWhile_append_of_all pyIsSpace ws2 rem hws2 hhead
    have hcap : capRest rem = some rem := capRest_no_newline rem hnlrem
    have hassoc : tok ++ ws1 ++ d :: (ws2 ++ rem) = tok ++ (ws1 ++ d :: (ws2 ++ rem)) := by
      simp [List.append_assoc]
    rw [show cs = tok ++ (ws1 ++ d :: (ws2 ++ rem)) from heq.trans hassoc] at hws ⊢
    unfold matchDashTime
    rw [hws, ha]
    simp only
    rw [hb]
    simp only
    rw [if_pos hd, hc, hcap]

/-! ### Claim theorems -/

/-- C1: for every input string the segmenter returns exactly one
utterance per non-blank trimmed line, in input order, and the utterance
at 0-based output position `i` has `line_no = i + 1` and
`id = "u" ++ toString (i + 1)`; hence the ids are exactly `u1, u2, ...`
with no gaps or repeats, and the output length equals the number of
non-blank trimmed lines. -/
theorem C1_segmenter_numbering (raw : String) :
    (split_script_to_utterances raw).length = (nonBlankLines raw).length ∧
    ∀ (i : Nat) (u : Utterance), (split_script_to_utterances raw)[i]? = some u →
      u.line_no = i + 1 ∧ u.id = "u" ++ toString (i + 1) := by
  constructor
  · exact length_numberLines 1 (nonBlankLines raw)
  · intro i u hu
    rw [split_script_to_utterances, getElem?_numberLines] at hu
    cases hln : (nonBlankLines raw)[i]? with
    | none => rw [hln] at hu; simp at hu
    | some ln =>
      rw [hln] at hu
      simp only [Option.map_some'] at hu
      have hu2 : lineToUtterance (1 + i) ln = u := Option.some.inj hu
      subst hu2
      rw [Nat.add_comm 1 i]
      exact ⟨lineToUtterance_line_no _ _, lineToUtterance_id _ _⟩

/-- C1 witness: on the input `"a\n\nb"` the second utterance has
`line_no = 2` and `id = "u2"`, and the output length is the number of
non-blank trimmed lines. -/
theorem C1_segmenter_numbering_witness :
    ((split_script_to_utterances "a\n\nb").length = (nonBlankLines "a\n\nb").length) ∧
    (({ id := "u2", line_no := 2, time := none, text := "b" } : Utterance).line_no = 1 + 1 ∧
     ({ id := "u2", line_no := 2, time := none, text := "b" } : Utterance).id =
       "u" ++ toString (1 + 1)) :=
  ⟨(C1_segmenter_numbering "a\n\nb").1,
   (C1_segmenter_numbering "a\n\nb").2 1
     { id := "u2", line_no := 2, time := none, text := "b" } rfl⟩

/-- C3 counterexample: the claim that every produced utterance has
non-empty text fails on the input `"[00:12]"`, a line consisting only of
a bracketed timestamp marker, whose utterance has `text = ""`. -/
theorem C3_counterexample :
    ¬ (∀ raw : String, ∀ u ∈ split_script_to_utterances raw, u.text ≠ "") := by
  intro h
  have heq : split_script_to_utterances "[00:12]" =
      [{ id := "u1", line_no := 1, time := some "00:12", text := "" }] := rfl
  exact h "[00:12]" { id := "u1", line_no := 1, time := some "00:12", text := "" }
    (heq ▸ List.mem_singleton.mpr rfl) rfl

/-- C3 amended: every utterance produced from a line on which neither
timestamp pattern matched (`time = none`) has non-empty text; empty text
can occur only on lines consisting of a recognized timestamp marker with
nothing after it. -/
theorem C3_amended_nonempty_text (raw : String) :
    ∀ u ∈ split_script_to_utterances raw, u.time = none → u.text ≠ "" := by
  intro u hu htime
  obtain ⟨i, hi⟩ := List.mem_iff_getElem?.mp hu
  rw [split_script_to_utterances, getElem?_numberLines] at hi
  cases hln : (nonBlankLines raw)[i]? with
  | none => rw [hln] at hi; simp at hi
  | some ln =>
    rw [hln] at hi
    simp only [Option.map_some'] at hi
    have hmem : ln ∈ nonBlankLines raw := by
      have := List.mem_iff_getElem?.mpr ⟨i, hln⟩
      exact this
    have hne : ln ≠ "" := by
      have h2 := (List.mem_filter.mp hmem).2
      simpa using h2
    have hu2 : lineToUtterance (1 + i) ln = u := Option.some.inj hi
    subst hu2
    cases hm : firstTimeMatch ln with
    | some p =>
      exfalso
      cases p with
      | mk t x => simp [lineToUtterance, hm] at htime
    | none =>
      simp [lineToUtterance, hm]
      exact hne

/-- C3 amended witness: the single utterance of input `"hi"` has
`time = none` and its text `"hi"` is non-empty. -/
theorem C3_amended_nonempty_text_witness :
    ({ id := "u1", line_no := 1, time := none, text := "hi" } : Utterance).text ≠ "" := by
  have heq : split_script_to_utterances "hi" =
      [{ id := "u1", line_no := 1, time := none, text := "hi" }] := rfl
  exact C3_amended_nonempty_text "hi"
    { id := "u1", line_no := 1, time := none, text := "hi" }
    (heq ▸ List.mem_singleton.mpr rfl) rfl

/-- C4 counterexample: the claim that a dashed line requires whitespace
around the separator fails: in the regex `\s*[-–—]\s*` the whitespace is
optional, so `"00:12-hello"` (no whitespace around the dash) is matched
by the dashed pattern, with `time = "00:12"` and `text = "hello"`. -/
theorem C4_counterexample :
    matchDashTime ("00:12-hello").data = some ("00:12", "hello") ∧
    matchDashTime ("00:12-hello").data ≠ none ∧
    split_script_to_utterances "00:12-hello" =
      [{ id := "u1", line_no := 1, time := some "00:12", text := "hello" }] :=
  ⟨rfl, by decide, rfl⟩

/-- C4 amended: a trimmed line (no leading whitespace, no embedded
newline) is recognized by the dashed pattern exactly when it consists of
a time token of shape `H:MM`, `H:MM:SS`, `HH:MM` or `HH:MM:SS`,
*optional* whitespace, a dash-like separator, *optional* whitespace, and
the remainder; in that case `time` is the token and the captured text is
the remainder, and in particular `"00:12 - hello"` yields
`time = "00:12"`, `text = "hello"`. -/
theorem C4_dashed_pattern :
    (∀ cs tok rem : List Char, cs.dropWhile pyIsSpace = cs → '\n' ∉ cs →
      (matchDashTime cs = some (String.mk tok, String.mk rem) ↔
        dashSeparated cs tok rem)) ∧
    matchDashTime ("00:12 - hello").data = some ("00:12", "hello") ∧
    split_script_to_utterances "00:12 - hello" =
      [{ id := "u1", line_no := 1, time := some "00:12", text := "hello" }] :=
  ⟨matchDashTime_iff, rfl, rfl⟩

/-- C4 amended witness: applying the characterization to the concrete
line `"00:12-x"` yields its decomposition into token, dash and
remainder. -/
theorem C4_dashed_pattern_witness :
    dashSeparated ("00:12-x").data ("00:12").data ("x").data :=
  (C4_dashed_pattern.1 ("00:12-x").data ("00:12").data ("x").data
    (by decide) (by decide)).mp (by decide)

/-- C7: the segmenter and reconciler are total: any whitespace-only
input (the empty string included) yields the empty utterance sequence,
the empty string yields the empty sequence, and the reconciler maps the
empty record list to the empty list. -/
theorem C7_totality :
    (∀ raw : String, (∀ c ∈ raw.data, pyIsSpace c = true) →
      split_script_to_utterances raw = []) ∧
    split_script_to_utterances "" = [] ∧
    dedupe_results_by_utterance_id [] = [] := by
  refine ⟨?_, rfl, rfl⟩
  intro raw h
  suffices hnb : nonBlankLines raw = [] by
    simp [split_script_to_utterances, hnb, numberLines]
  unfold nonBlankLines
  rw [List.filter_eq_nil_iff]
  intro ln hln
  obtain ⟨ln0, hln0, rfl⟩ := List.mem_map.mp hln
  have hall : ∀ c ∈ ln0.data, pyIsSpace c = true :=
    fun c hc => h c (mem_pySplitlines raw ln0 hln0 c hc)
  simp [pyStrip_all_space ln0 hall]

/-- C7 witness: the whitespace-only input `" \n\t "` yields the empty
utterance sequence. -/
theorem C7_totality_witness : split_script_to_utterances " \n\t " = [] :=
  C7_totality.1 " \n\t " (by decide)

/-- C8: a non-blank trimmed line matched by neither `TIME_PATTERNS`
regex yields an utterance with `time` absent and `text` equal to the
trimmed line verbatim. -/
theorem C8_no_timestamp_verbatim (raw : String) (i : Nat) (ln : String)
    (hln : (nonBlankLines raw)[i]? = some ln)
    (hb : matchBracketTime ln.data = none)
    (hd : matchDashTime ln.data = none) :
    (split_script_to_utterances raw)[i]? =
      some { id := "u" ++ toString (i + 1), line_no := i + 1, time := none, text := ln } := by
  rw [split_script_to_utterances, getElem?_numberLines, hln]
  simp only [Option.map_some']
  rw [Nat.add_comm 1 i]
  simp [lineToUtterance, firstTimeMatch, hb, hd]

/-- C8 witness: the line `"hello"` matches neither pattern and is
returned verbatim with no time. -/
theorem C8_no_timestamp_verbatim_witness :
    (split_script_to_utterances "hello")[0]? =
      some { id := "u" ++ toString (0 + 1), line_no := 0 + 1, time := none, text := "hello" } :=
  C8_no_timestamp_verbatim "hello" 0 "hello" rfl rfl rfl

/-- C9: the response-handling step returns the parsed document exactly
when the external JSON parse succeeds, and otherwise produces a distinct
error whose message carries the raw offending provider output. -/
theorem C9_malformed_response (loads : String → Except String PyJson) (raw : String) :
    (∀ doc, loads raw = Except.ok doc → handle_model_response loads raw = Except.ok doc) ∧
    (∀ e, loads raw = Except.error e →
      handle_model_response loads raw = Except.error (parseFailMessage e raw) ∧
      ∃ pre, parseFailMessage e raw = pre ++ raw) ∧
    ((∃ msg, handle_model_response loads raw = Except.error msg) ↔
      ∃ e, loads raw = Except.error e) := by
  refine ⟨?_, ?_, ?_⟩
  · intro doc hdoc
    simp [handle_model_response, hdoc]
  · intro e he
    refine ⟨by simp [handle_model_response, he], ?_⟩
    exact ⟨"모델 응답 JSON 파싱 실패: " ++ e ++ "\n---raw---\n", by
      simp [parseFailMessage, String.append_assoc]⟩
  · constructor
    · rintro ⟨msg, hmsg⟩
      cases h : loads raw with
      | ok doc => rw [show handle_model_response loads raw = Except.ok doc by
          simp [handle_model_response, h]] at hmsg; exact absurd hmsg (by simp)
      | error e => exact ⟨e, rfl⟩
    · rintro ⟨e, he⟩
      exact ⟨parseFailMessage e raw, by simp [handle_model_response, he]⟩

/-- C9 witness: with a parse that fails with message `"boom"` on the raw
output `"oops"`, the handler produces the error carrying that raw
output. -/
theorem C9_malformed_response_witness :
    handle_model_response (fun _ => (Except.error "boom" : Except String PyJson)) "oops" =
      Except.error (parseFailMessage "boom" "oops") :=
  ((C9_malformed_response (fun _ => Except.error "boom") "oops").2.1 "boom" rfl).1

/-- C2: the reconciler output contains at most one record per
utterance id, every output record is the last input record bearing its
id (last-write-wins), and in particular reconciling a `CLEAR` then a
`VIOLATION` record for `"u1"` keeps only the `VIOLATION` record. -/
theorem C2_last_write_wins (results : List VerdictRecord) :
    ((dedupe_results_by_utterance_id results).map (fun r => r.utterance_id)).Nodup ∧
    (∀ r ∈ dedupe_results_by_utterance_id results,
      (results.filter (fun x => x.utterance_id == r.utterance_id)).getLast? = some r) ∧
    dedupe_results_by_utterance_id
        [{ utterance_id := some "u1", verdict := some "CLEAR" },
         { utterance_id := some "u1", verdict := some "VIOLATION" }] =
      [{ utterance_id := some "u1", verdict := some "VIOLATION" }] := by
  have hwf : WFmap (results.foldl dedupeStep []) := WFmap_dedupeFold results [] WFmap_nil
  refine ⟨?_, ?_, rfl⟩
  · unfold dedupe_results_by_utterance_id
    rw [List.map_map]
    have hcomp : ((fun (r : VerdictRecord) => r.utterance_id) ∘ Prod.snd) =
        (fun (p : String × VerdictRecord) => p.2.utterance_id) := rfl
    rw [hcomp,
      List.map_congr_left (fun p hp => (hwf.1 p hp).1),
      show (fun (p : String × VerdictRecord) => some p.1) = some ∘ Prod.fst from rfl,
      ← List.map_map]
    exact List.Nodup.map (fun a b h => Option.some.inj h) hwf.2
  · intro r hr
    unfold dedupe_results_by_utterance_id at hr
    obtain ⟨p, hp, hpr⟩ := List.mem_map.mp hr
    have hids := hwf.1 p hp
    have hrid : r.utterance_id = some p.1 := hpr ▸ hids.1
    rw [hrid]
    have hmain := dedupeFold_filter_key p.1 hids.2 results [] List.nodup_nil
    have hpf : p ∈ (results.foldl dedupeStep []).filter (fun q => q.1 == p.1) :=
      List.mem_filter.mpr ⟨hp, by simp⟩
    rw [hmain] at hpf
    cases htail : (results.filter (fun x => x.utterance_id == some p.1)).getLast? with
    | none => rw [htail] at hpf; simp at hpf
    | some rlast =>
      rw [htail] at hpf
      simp at hpf
      rw [← hpr, show rlast = p.2 from (congrArg Prod.snd hpf).symm]

/-- C2 witness: for the two-record input of the claim, the kept record
for `"u1"` is the last one listed. -/
theorem C2_last_write_wins_witness :
    (([{ utterance_id := some "u1", verdict := some "CLEAR" },
       { utterance_id := some "u1", verdict := some "VIOLATION" }] :
        List VerdictRecord).filter
      (fun x => x.utterance_id ==
        ({ utterance_id := some "u1", verdict := some "VIOLATION" } :
          VerdictRecord).utterance_id)).getLast? =
      some { utterance_id := some "u1", verdict := some "VIOLATION" } :=
  (C2_last_write_wins
      [{ utterance_id := some "u1", verdict := some "CLEAR" },
       { utterance_id := some "u1", verdict := some "VIOLATION" }]).2.1
    { utterance_id := some "u1", verdict := some "VIOLATION" } (by decide)

/-- C5: the reconciler output is ordered by the first occurrence of
each unique non-empty utterance id in the input: the output ids are
exactly the first-insertion order of the input ids. -/
theorem C5_first_occurrence_order (results : List VerdictRecord) :
    (dedupe_results_by_utterance_id results).map (fun r => r.utterance_id) =
      (firstInsertOrder (extractIds results)).map some := by
  have hwf : WFmap (results.foldl dedupeStep []) := WFmap_dedupeFold results [] WFmap_nil
  unfold dedupe_results_by_utterance_id
  rw [List.map_map]
  have hcomp : ((fun (r : VerdictRecord) => r.utterance_id) ∘ Prod.snd) =
      (fun (p : String × VerdictRecord) => p.2.utterance_id) := rfl
  rw [hcomp,
    List.map_congr_left (fun p hp => (hwf.1 p hp).1),
    show (fun (p : String × VerdictRecord) => some p.1) = some ∘ Prod.fst from rfl,
    ← List.map_map,
    show (results.foldl dedupeStep []).map Prod.fst =
      keysOf (results.foldl dedupeStep []) from rfl,
    keysOf_dedupeFold results []]
  rfl

/-- C6: records with a missing or empty utterance id are dropped
silently (reconciliation only sees the records whose id is present),
and when all input records carry distinct non-empty ids the output is
the input unchanged. -/
theorem C6_dropped_ids (results : List VerdictRecord) :
    dedupe_results_by_utterance_id results =
      dedupe_results_by_utterance_id
        (results.filter (fun r => uidPresent r.utterance_id)) ∧
    ((∀ r ∈ results, uidPresent r.utterance_id = true) → (extractIds results).Nodup →
      dedupe_results_by_utterance_id results = results) := by
  constructor
  · unfold dedupe_results_by_utterance_id
    rw [dedupeFold_filter_good results []]
  · intro hall hnd
    unfold dedupe_results_by_utterance_id
    rw [dedupeFold_all_new results [] hall hnd
      (fun kk _ hmem => absurd hmem (List.not_mem_nil kk))]
    simp

/-- C6 witness: two records with distinct non-empty ids are kept
unchanged. -/
theorem C6_dropped_ids_witness :
    dedupe_results_by_utterance_id
        [{ utterance_id := some "u2", verdict := some "CLEAR" },
         { utterance_id := some "u1", verdict := some "VIOLATION" }] =
      [{ utterance_id := some "u2", verdict := some "CLEAR" },
       { utterance_id := some "u1", verdict := some "VIOLATION" }] :=
  (C6_dropped_ids
      [{ utterance_id := some "u2", verdict := some "CLEAR" },
       { utterance_id := some "u1", verdict := some "VIOLATION" }]).2
    (by decide) (by decide)

/-- C10: every distinct non-empty utterance id of the input appears
exactly once in the reconciler output, carried by a record identical to
the last input record bearing it, and no id absent from the input
appears: filtering the output by any non-empty id gives exactly the
last matching input record (or nothing when the id never occurs). -/
theorem C10_exactly_once (results : List VerdictRecord) (k : String) (hk : k ≠ "") :
    (dedupe_results_by_utterance_id results).filter
        (fun r => r.utterance_id == some k) =
      ((results.filter (fun r => r.utterance_id == some k)).getLast?).toList := by
  unfold dedupe_results_by_utterance_id
  have hwf : WFmap (results.foldl dedupeStep []) := WFmap_dedupeFold results [] WFmap_nil
  rw [filter_snd_eq _ (fun p hp => (hwf.1 p hp).1) k,
    dedupeFold_filter_key k hk results [] List.nodup_nil]
  cases htail : (results.filter (fun r => r.utterance_id == some k)).getLast? with
  | some r => simp
  | none => simp

/-- C10 witness: with two records for `"u2"` and one for `"u1"`, the
output record for `"u2"` is exactly the later-listed one. -/
theorem C10_exactly_once_witness :
    (dedupe_results_by_utterance_id
        [{ utterance_id := some "u2", verdict := some "CLEAR" },
         { utterance_id := some "u1", verdict := some "CLEAR" },
         { utterance_id := some "u2", verdict := some "VIOLATION" }]).filter
        (fun r => r.utterance_id == some "u2") =
      ((([{ utterance_id := some "u2", verdict := some "CLEAR" },
          { utterance_id := some "u1", verdict := some "CLEAR" },
          { utterance_id := some "u2", verdict := some "VIOLATION" }] :
           List VerdictRecord).filter
          (fun r => r.utterance_id == some "u2")).getLast?).toList :=
  C10_exactly_once
    [{ utterance_id := some "u2", verdict := some "CLEAR" },
     { utterance_id := some "u1", verdict := some "CLEAR" },
     { utterance_id := some "u2", verdict := some "VIOLATION" }] "u2" (by decide)

end MetaComm
